import Mathlib

/-!
Shallow embedding of the rs_roguelike tile-console renderer (src/main.rs).

Conventions of the embedding:
- Rust machine integers (`u32`, `u8`, `i32`, `usize`) are modelled as `Nat`/`Int`,
  with an explicit `% 2 ^ w` where the wrapped range matters.
- The `f32` arithmetic of `update_dstrect` is modelled exactly over `ℚ`; the Rust
  `as i32` cast of a float is truncation toward zero (`i32cast`). All cast
  operands arising in `update_dstrect` are nonnegative, where truncation toward
  zero coincides with the floor.
- Fallible or panicking operations return `Option`: `Vec` indexing is `List.get?`,
  so the out-of-range branch of `self.tiles[index]` (a Rust panic) appears as a
  `none` from `List.get?` and is tracked against `tiles.length` explicitly.
- Randomness (`rand::random`) is an oracle argument: one record of draw values
  per tile, supplied as a function from the tile's position in the vector.
-/

/-- `const TILE_SIZE: (u32, u32) = (14, 16)`. -/
def TILE_SIZE : Nat × Nat := (14, 16)

/-- `const CONSOLE_SIZE: (u32, u32) = (140, 60)`. -/
def CONSOLE_SIZE : Nat × Nat := (140, 60)

/-- `const WINDOW_SIZE: (u32, u32) = (1280, 720)`. -/
def WINDOW_SIZE : Nat × Nat := (1280, 720)

/-- Rust `as i32` applied to a (finite, in-range) `f32`: truncation toward zero,
modelled on exact rationals. -/
def i32cast (q : ℚ) : ℤ := if 0 ≤ q then ⌊q⌋ else -⌊-q⌋

/-- An `sdl2::rect::Rect` as used for the blit destination: `x`, `y`, `w`, `h`
are `i32` fields. -/
structure DstRect where
  x : ℤ
  y : ℤ
  w : ℤ
  h : ℤ
deriving Repr, DecidableEq

/-- `let rat_w: f32 = w as f32 / WINDOW_SIZE.0 as f32` (exact over `ℚ`). -/
def ratW (w : Nat) : ℚ := (w : ℚ) / (WINDOW_SIZE.1 : ℚ)

/-- `let rat_h: f32 = h as f32 / WINDOW_SIZE.1 as f32` (exact over `ℚ`). -/
def ratH (h : Nat) : ℚ := (h : ℚ) / (WINDOW_SIZE.2 : ℚ)

/-- The branch condition `rat_w > rat_h` of `update_dstrect`; `true` selects the
first (height-binding) branch. -/
def heightBinding (w h : Nat) : Bool := decide (ratW w > ratH h)

/-- The first branch of `update_dstrect` (taken when `rat_w > rat_h`):
`dstrect.w = (rat_h * WINDOW_SIZE.0 as f32) as i32; dstrect.h = h as i32;
dstrect.x = ((w as i32 - dstrect.w) as f32 / 2f32) as i32; dstrect.y = 0`. -/
def heightBranch (w h : Nat) : DstRect :=
  let dw : ℤ := i32cast (ratH h * (WINDOW_SIZE.1 : ℚ))
  { w := dw
    h := (h : ℤ)
    x := i32cast ((((w : ℤ) - dw : ℤ) : ℚ) / 2)
    y := 0 }

/-- The second branch of `update_dstrect` (taken when `rat_w <= rat_h`):
`dstrect.w = w as i32; dstrect.h = (rat_w * WINDOW_SIZE.1 as f32) as i32;
dstrect.x = 0; dstrect.y = ((h as i32 - dstrect.h) as f32 / 2f32) as i32`. -/
def widthBranch (w h : Nat) : DstRect :=
  let dh : ℤ := i32cast (ratW w * (WINDOW_SIZE.2 : ℚ))
  { w := (w : ℤ)
    h := dh
    x := 0
    y := i32cast ((((h : ℤ) - dh : ℤ) : ℚ) / 2) }

/-- `fn update_dstrect(dstrect: &mut Rect, (w, h): (u32, u32))`: the rectangle
written into `dstrect` for window size `(w, h)`. -/
def update_dstrect (w h : Nat) : DstRect :=
  if ratW w > ratH h then heightBranch w h else widthBranch w h

example : ratW 1280 = ratH 720 := by norm_num [ratW, ratH, WINDOW_SIZE]
example : heightBinding 1280 720 = false := by
  norm_num [heightBinding, ratW, ratH, WINDOW_SIZE]
example : update_dstrect 1282 721 =
    { w := 1281, h := 721, x := 0, y := 0 } := by
  norm_num [update_dstrect, ratW, ratH, WINDOW_SIZE, heightBranch, i32cast]
example : round ((721 : ℚ) / 720 * 1280) = 1282 := by
  norm_num [round_eq, Int.floor_eq_iff]

/-- An `sdl2::pixels::Color`: four `u8` channels `r`, `g`, `b`, `a`. -/
structure Color where
  r : Nat
  g : Nat
  b : Nat
  a : Nat
deriving Repr, DecidableEq

/-- The `Animation` enum: `Blink(f32)`, `VerticalShift`, `HorizontalShift`,
`ColorShift(f32, Color, Color)` (the `f32` payloads modelled over `ℚ`;
the program only ever stores the empty animation list). -/
inductive Animation where
  | Blink : ℚ → Animation
  | VerticalShift : Animation
  | HorizontalShift : Animation
  | ColorShift : ℚ → Color → Color → Animation
deriving Repr, DecidableEq

/-- Modelled from the spec: the `cp437` module is not under `src/`; the spec
fixes the glyph code range as 0..256 ("pure function mapping a glyph code
(0..256)", Tile glyph "GlyphCode (0..255)"), so `Cp437::Count as u32` is 256. -/
def cp437Count : Nat := 256

/-- Modelled from the spec: `Cp437::QuestionMark` is the code-page entry for the
question mark, code point 63 in CP437. -/
def cp437QuestionMark : Nat := 63

/-- The `Tile` struct: grid position `row`/`col`, glyph `code_point` (the
`Cp437` value as its `u32` code), colors, the dirty flag and the (unused)
animation list. -/
structure Tile where
  row : Nat
  col : Nat
  code_point : Nat
  foreground : Color
  background : Color
  dirty : Bool
  animations : List Animation
deriving Repr, DecidableEq

/-- `impl Default for Tile`: `row: 0, col: 0, code_point: Cp437::QuestionMark,
foreground: RGBA(255,0,0,255), background: RGBA(0,0,255,255), dirty: true,
animations: vec![]`. -/
def Tile.default : Tile :=
  { row := 0
    col := 0
    code_point := cp437QuestionMark
    foreground := ⟨255, 0, 0, 255⟩
    background := ⟨0, 0, 255, 255⟩
    dirty := true
    animations := [] }

/-- The `Console` struct: `width`, `height`, and the tile vector. -/
structure Console where
  width : Nat
  height : Nat
  tiles : List Tile
deriving Repr, DecidableEq

/-- The tile vector built by `Console::new`: `for col in 0..height { for row in
0..width { tiles.push(Tile { row, col, ..Default::default() }) } }`. -/
def newTiles (width height : Nat) : List Tile :=
  (List.range height).bind fun col =>
    (List.range width).map fun row => { Tile.default with row := row, col := col }

/-- `Console::new(width, height)`. -/
def Console.new (width height : Nat) : Console :=
  { width := width, height := height, tiles := newTiles width height }

/-- `fn index(&self, x: u32, y: u32) -> usize { (x + (y * self.width)) as usize }`. -/
def Console.index (c : Console) (x y : Nat) : Nat := x + y * c.width

/-- `fn tile_mut(&mut self, x: u32, y: u32) -> Option<&mut Tile>`: the source
checks `if x > self.width || y > self.height { return None; }` and then indexes
`self.tiles[index]`; the indexing panics when `index >= tiles.len()`, which this
total embedding renders as the inner `List.get?` returning `none`. -/
def Console.tile_mut (c : Console) (x y : Nat) : Option Tile :=
  if x > c.width ∨ y > c.height then none
  else c.tiles.get? (c.index x y)

/-- `fn reset_tiles(&mut self) { for t in &mut self.tiles { t.dirty = false; } }`. -/
def Console.reset_tiles (c : Console) : Console :=
  { c with tiles := c.tiles.map fun t => { t with dirty := false } }

theorem newTiles_length (w h : Nat) : (newTiles w h).length = w * h := by
  induction h with
  | zero => simp [newTiles]
  | succ n ih =>
    simp only [newTiles, List.range_succ, List.append_bind, List.cons_bind,
      List.nil_bind, List.append_nil, List.length_append, List.length_map,
      List.length_range] at ih ⊢
    rw [ih, Nat.mul_succ]

theorem newTiles_get (w h x y : Nat) (hx : x < w) (hy : y < h) :
    (newTiles w h).get? (x + y * w) =
      some { Tile.default with row := x, col := y } := by
  induction h with
  | zero => exact absurd hy (Nat.not_lt_zero y)
  | succ n ih =>
    have hsplit : newTiles w (n + 1) =
        newTiles w n ++
          (List.range w).map fun row => { Tile.default with row := row, col := n } := by
      simp [newTiles, List.range_succ, List.append_bind]
    rcases Nat.lt_succ_iff_lt_or_eq.mp hy with hlt | rfl
    · have hidx : x + y * w < (newTiles w n).length := by
        rw [newTiles_length]
        calc x + y * w < w + y * w := by omega
        _ = (y + 1) * w := by ring
        _ ≤ n * w := Nat.mul_le_mul_right w hlt
        _ = w * n := Nat.mul_comm n w
      rw [hsplit, List.get?_append hidx]
      exact ih hlt
    · have hlen : (newTiles w y).length ≤ x + y * w := by
        rw [newTiles_length, Nat.mul_comm]; omega
      rw [hsplit, List.get?_append_right hlen, newTiles_length]
      have hx2 : x + y * w - w * y = x := by
        rw [Nat.mul_comm w y]; omega
      rw [hx2, List.get?_map, List.get?_range hx]
      rfl

/-- A blit rectangle with `i32` position and `u32` size, as built by
`Rect::new` inside `draw_tile`. -/
structure PixelRect where
  x : ℤ
  y : ℤ
  w : Nat
  h : Nat
deriving Repr, DecidableEq

/-- The destination rectangle computed by `draw_tile` for a tile:
`Rect::new((tile.row * TILE_SIZE.0) as i32, (tile.col * TILE_SIZE.1) as i32,
TILE_SIZE.0, TILE_SIZE.1)`. -/
def tileDstRect (t : Tile) : PixelRect :=
  { x := (t.row * TILE_SIZE.1 : ℕ)
    y := (t.col * TILE_SIZE.2 : ℕ)
    w := TILE_SIZE.1
    h := TILE_SIZE.2 }

/-- The render pass of the main loop over a tile vector: `for tile in
console.tiles() { if tile.dirty() { draw_tile(...)? } }`, abstracted as the
sequence of destination rectangles composited into the frame buffer. -/
def drawTiles : List Tile → List PixelRect
  | [] => []
  | t :: ts => if t.dirty then tileDstRect t :: drawTiles ts else drawTiles ts

/-- One `drawFrame` pass over a console: the draw operations issued against the
frame buffer, in tile-vector order. -/
def drawFrame (c : Console) : List PixelRect := drawTiles c.tiles

/-- The random draws consumed for one tile inside the mutation loop, as raw
oracle values; `u32` draws are reduced `% 2 ^ 32` and `u8` draws `% 2 ^ 8`
where used, mirroring the machine-integer ranges. -/
structure TileRand where
  sel : Nat
  glyph : Nat
  fgR : Nat
  fgG : Nat
  fgB : Nat
  bgR : Nat
  bgG : Nat
  bgB : Nat
deriving Repr, DecidableEq

/-- The closure body of the mutation loop:
`if (random::<u32>() % 10) != 0 { return; }` then assign
`code_point = Cp437::from(random::<u32>() % (Cp437::Count as u32))`,
`foreground = Color::RGBA(random::<u8>(), random::<u8>(), random::<u8>(), 255)`,
`background = Color::RGBA(random::<u8>() % 32, random::<u8>() % 32,
random::<u8>() % 32, 255)`, `dirty = true`. -/
def mutateTile (r : TileRand) (t : Tile) : Tile :=
  if r.sel % 2 ^ 32 % 10 ≠ 0 then t
  else
    { t with
      code_point := r.glyph % 2 ^ 32 % cp437Count
      foreground := ⟨r.fgR % 2 ^ 8, r.fgG % 2 ^ 8, r.fgB % 2 ^ 8, 255⟩
      background :=
        ⟨r.bgR % 2 ^ 8 % 32, r.bgG % 2 ^ 8 % 32, r.bgB % 2 ^ 8 % 32, 255⟩
      dirty := true }

/-- The `par_iter_mut().for_each(...)` pass over the tile vector, each tile
consuming its own draws from the oracle, indexed by vector position starting
at `i`. -/
def mutateTiles (rand : Nat → TileRand) (i : Nat) : List Tile → List Tile
  | [] => []
  | t :: ts => mutateTile (rand i) t :: mutateTiles rand (i + 1) ts

/-- The `if state.randomize { console.tiles_mut().par_iter_mut().for_each(...) }`
stage of the main loop (`applyRandomMutation` in the spec). -/
def applyRandomMutation (trigger : Bool) (rand : Nat → TileRand) (c : Console) :
    Console :=
  if trigger then { c with tiles := mutateTiles rand 0 c.tiles } else c

theorem drawTiles_eq_filter (ts : List Tile) :
    drawTiles ts = (ts.filter fun t => t.dirty).map tileDstRect := by
  induction ts with
  | nil => rfl
  | cons t ts ih =>
    by_cases hd : t.dirty <;> simp [drawTiles, List.filter_cons, hd, ih]

theorem length_filter_dirty_add (ts : List Tile) :
    (ts.filter fun t => t.dirty).length +
      (ts.filter fun t => !t.dirty).length = ts.length := by
  induction ts with
  | nil => rfl
  | cons t ts ih =>
    by_cases hd : t.dirty <;>
      simp [List.filter_cons, hd] <;> omega

theorem mutateTiles_get (rand : Nat → TileRand) (ts : List Tile) (j i : Nat) :
    (mutateTiles rand j ts).get? i =
      (ts.get? i).map fun t => mutateTile (rand (j + i)) t := by
  induction ts generalizing j i with
  | nil => simp [mutateTiles]
  | cons t ts ih =>
    cases i with
    | zero => simp [mutateTiles]
    | succ n =>
      simp only [mutateTiles, List.get?_cons_succ]
      rw [ih (j + 1) n]
      have hj : j + 1 + n = j + (n + 1) := by omega
      rw [hj]

/-- C3: for every console created by `Console::new(width, height)` with positive
dimensions, the tile vector has length `width * height`, `index(x, y) = x +
y*width` (row-major), every in-bounds `(x, y)` maps to a tile with `row = x`
and `col = y`, and the mapping is one-to-one on in-bounds coordinates. -/
theorem console_new_row_major (w h : Nat) (hw : 0 < w) (hh : 0 < h) :
    (Console.new w h).tiles.length = w * h ∧
    (∀ x y : Nat, (Console.new w h).index x y = x + y * w) ∧
    (∀ x y : Nat, x < w → y < h →
      ∃ t : Tile,
        (Console.new w h).tiles.get? ((Console.new w h).index x y) = some t ∧
          t.row = x ∧ t.col = y) ∧
    (∀ x y x2 y2 : Nat, x < w → x2 < w →
      x + y * w = x2 + y2 * w → x = x2 ∧ y = y2) := by
  refine ⟨newTiles_length w h, fun x y => rfl, ?_, ?_⟩
  · intro x y hx hy
    exact ⟨_, newTiles_get w h x y hx hy, rfl, rfl⟩
  · intro x y x2 y2 hx hx2 heq
    have h1 : (x + y * w) % w = x := by
      rw [Nat.add_mul_mod_self_right, Nat.mod_eq_of_lt hx]
    have h2 : (x2 + y2 * w) % w = x2 := by
      rw [Nat.add_mul_mod_self_right, Nat.mod_eq_of_lt hx2]
    have hxx : x = x2 := by rw [← h1, ← h2, heq]
    subst hxx
    have hyy : y * w = y2 * w := by omega
    exact ⟨rfl, Nat.eq_of_mul_eq_mul_right hw hyy⟩

theorem console_new_row_major_witness :
    (Console.new 2 3).tiles.length = 6 ∧
    ∃ t : Tile,
      (Console.new 2 3).tiles.get? ((Console.new 2 3).index 1 2) = some t ∧
        t.row = 1 ∧ t.col = 2 :=
  ⟨(console_new_row_major 2 3 (by norm_num) (by norm_num)).1,
   (console_new_row_major 2 3 (by norm_num) (by norm_num)).2.2.1 1 2
     (by norm_num) (by norm_num)⟩

/-- C7: every tile of a console freshly created by `Console::new(width, height)`
has its dirty flag set to true. -/
theorem console_new_all_dirty (w h : Nat) :
    ((Console.new w h).tiles.all fun t => t.dirty) = true := by
  rw [List.all_eq_true]
  intro t ht
  simp only [Console.new, newTiles, List.mem_bind, List.mem_map] at ht
  obtain ⟨col, hcol, row, hrow, rfl⟩ := ht
  rfl

/-- C8: `reset_tiles` sets every tile's dirty flag to false, is idempotent
(`reset_tiles` after `reset_tiles` is the same console as one `reset_tiles`),
and has no effect other than clearing each tile's dirty flag. -/
theorem reset_tiles_clears_and_idempotent (c : Console) :
    ((c.reset_tiles).tiles.all fun t => !t.dirty) = true ∧
    c.reset_tiles.reset_tiles = c.reset_tiles ∧
    ∀ i : Nat,
      (c.reset_tiles).tiles.get? i =
        (c.tiles.get? i).map fun t => { t with dirty := false } := by
  refine ⟨?_, ?_, ?_⟩
  · rw [List.all_eq_true]
    intro t ht
    simp only [Console.reset_tiles, List.mem_map] at ht
    obtain ⟨s, hs, rfl⟩ := ht
    rfl
  · simp only [Console.reset_tiles, List.map_map]
    rfl
  · intro i
    simp [Console.reset_tiles, List.get?_map]

/-- C1, failing input: the claim says `tile_mut(x, y)` returns none for every
`x >= width` and never crashes, but the source checks `x > self.width || y >
self.height`, so on a 2×2 console the call `tile_mut(2, 1)` passes the check
and computes index `4 = tiles.len()` (in Rust, `self.tiles[4]` panics), while
`tile_mut(2, 0)` returns a tile whose position is `(0, 1)`, not none. -/
theorem tile_mut_bounds_check_off_by_one :
    (¬ (2 > (Console.new 2 2).width ∨ 1 > (Console.new 2 2).height)) ∧
    (Console.new 2 2).index 2 1 = (Console.new 2 2).tiles.length ∧
    (Console.new 2 2).tile_mut 2 0 =
      some { Tile.default with row := 0, col := 1 } := by
  refine ⟨by decide, by decide, by decide⟩

/-- C10: for every console built by `Console::new(w, h)` with `w, h >= 1`, the
call `tile_mut(w, h-1)` passes the bounds check while its computed index equals
`w*h`, the length of the tile vector (so the Rust indexing is out of range),
and for `y < h-1` the call `tile_mut(w, y)` returns some tile whose `(row, col)`
is not `(w, y)`. -/
theorem tile_mut_accepts_out_of_range_index (w h : Nat) (hw : 1 ≤ w)
    (hh : 1 ≤ h) :
    (¬ (w > (Console.new w h).width ∨ h - 1 > (Console.new w h).height)) ∧
    (Console.new w h).index w (h - 1) = w * h ∧
    (Console.new w h).tiles.length = w * h ∧
    (∀ y : Nat, y < h - 1 →
      ∃ t : Tile,
        (Console.new w h).tile_mut w y = some t ∧ t.row ≠ w ∧ t.col ≠ y) := by
  obtain ⟨n, rfl⟩ : ∃ n, h = n + 1 := ⟨h - 1, by omega⟩
  refine ⟨?_, ?_, newTiles_length w (n + 1), ?_⟩
  · show ¬ (w > w ∨ n + 1 - 1 > n + 1)
    omega
  · show w + (n + 1 - 1) * w = w * (n + 1)
    rw [Nat.add_sub_cancel]
    ring
  · intro y hy
    have hy2 : y + 1 < n + 1 := by omega
    refine ⟨{ Tile.default with row := 0, col := y + 1 }, ?_,
      by show (0 : Nat) ≠ w; omega, by show y + 1 ≠ y; omega⟩
    rw [Console.tile_mut, if_neg (by show ¬ (w > w ∨ y > n + 1); omega)]
    have hidx : (Console.new w (n + 1)).index w y = 0 + (y + 1) * w := by
      show w + y * w = 0 + (y + 1) * w
      ring
    rw [hidx]
    exact newTiles_get w (n + 1) 0 (y + 1) hw hy2

theorem tile_mut_accepts_out_of_range_index_witness :
    (Console.new 2 2).index 2 (2 - 1) = 2 * 2 ∧
    ∃ t : Tile,
      (Console.new 2 2).tile_mut 2 0 = some t ∧ t.row ≠ 2 ∧ t.col ≠ 0 :=
  ⟨(tile_mut_accepts_out_of_range_index 2 2 (by norm_num) (by norm_num)).2.1,
   (tile_mut_accepts_out_of_range_index 2 2 (by norm_num) (by norm_num)).2.2.2 0
     (by norm_num)⟩

/-- C4: one `drawFrame` pass draws exactly the dirty tiles (in vector order),
skipping every tile with `dirty == false`, so when exactly `k` tiles are dirty
exactly `k` draw operations are issued and the other `length - k` tiles are
untouched; a drawn tile at grid position `(row, col)` is composited into the
frame-buffer pixel rectangle `(row*14, col*16, 14, 16)`. -/
theorem drawFrame_draws_exactly_dirty (c : Console) :
    drawFrame c = (c.tiles.filter fun t => t.dirty).map tileDstRect ∧
    (drawFrame c).length = (c.tiles.filter fun t => t.dirty).length ∧
    (c.tiles.filter fun t => t.dirty).length +
      (c.tiles.filter fun t => !t.dirty).length = c.tiles.length ∧
    ∀ t : Tile, tileDstRect t =
      { x := ((t.row * 14 : ℕ) : ℤ), y := ((t.col * 16 : ℕ) : ℤ),
        w := 14, h := 16 } := by
  refine ⟨drawTiles_eq_filter c.tiles, ?_, length_filter_dirty_add c.tiles,
    fun t => rfl⟩
  rw [drawFrame, drawTiles_eq_filter, List.length_map]

/-- C5: `applyRandomMutation` with the trigger unset leaves the console exactly
as it was, and when triggered every tile whose per-tile selection draw is not a
multiple of 10 (the `random::<u32>() % 10 != 0` early return) is left exactly
unchanged, with all fields intact. -/
theorem applyRandomMutation_untriggered_unselected (rand : Nat → TileRand)
    (c : Console) :
    applyRandomMutation false rand c = c ∧
    ∀ i : Nat, ∀ t : Tile, c.tiles.get? i = some t →
      (rand i).sel % 2 ^ 32 % 10 ≠ 0 →
      (applyRandomMutation true rand c).tiles.get? i = some t := by
  refine ⟨rfl, ?_⟩
  intro i t hget hsel
  show (mutateTiles rand 0 c.tiles).get? i = some t
  rw [mutateTiles_get rand c.tiles 0 i, hget, Option.map_some']
  rw [Nat.zero_add]
  simp only [mutateTile, if_pos hsel]

/-- A concrete oracle whose selection draw rejects every tile. -/
def constRand : Nat → TileRand := fun _ => ⟨1, 0, 0, 0, 0, 0, 0, 0⟩

theorem applyRandomMutation_untriggered_unselected_witness :
    applyRandomMutation false constRand (Console.new 1 1) = Console.new 1 1 ∧
    (applyRandomMutation true constRand (Console.new 1 1)).tiles.get? 0 =
      some { Tile.default with row := 0, col := 0 } :=
  ⟨(applyRandomMutation_untriggered_unselected constRand (Console.new 1 1)).1,
   (applyRandomMutation_untriggered_unselected constRand (Console.new 1 1)).2 0
     { Tile.default with row := 0, col := 0 } (by decide) (by decide)⟩

/-- C6: every tile selected for mutation (selection draw a multiple of 10) is
assigned a glyph code inside the valid glyph range, a foreground whose R, G, B
channels each lie in the full byte range 0..255 (and every byte triple is
attainable), a background whose R, G, B channels are each below 32, both with
alpha 255, and has its dirty flag set to true. -/
theorem mutateTile_selected_ranges (r : TileRand) (t : Tile)
    (hsel : r.sel % 2 ^ 32 % 10 = 0) :
    (mutateTile r t).code_point < cp437Count ∧
    (mutateTile r t).foreground.r < 256 ∧
    (mutateTile r t).foreground.g < 256 ∧
    (mutateTile r t).foreground.b < 256 ∧
    (mutateTile r t).foreground.a = 255 ∧
    (mutateTile r t).background.r < 32 ∧
    (mutateTile r t).background.g < 32 ∧
    (mutateTile r t).background.b < 32 ∧
    (mutateTile r t).background.a = 255 ∧
    (mutateTile r t).dirty = true ∧
    ∀ vr vg vb : Nat, vr < 256 → vg < 256 → vb < 256 →
      ∃ r2 : TileRand, r2.sel % 2 ^ 32 % 10 = 0 ∧
        (mutateTile r2 t).foreground = ⟨vr, vg, vb, 255⟩ := by
  have hne : ¬ (r.sel % 2 ^ 32 % 10 ≠ 0) := fun hcon => hcon hsel
  simp only [mutateTile, if_neg hne]
  refine ⟨Nat.mod_lt _ (by norm_num [cp437Count]), Nat.mod_lt _ (by norm_num),
    Nat.mod_lt _ (by norm_num), Nat.mod_lt _ (by norm_num), by trivial,
    Nat.mod_lt _ (by norm_num), Nat.mod_lt _ (by norm_num),
    Nat.mod_lt _ (by norm_num), by trivial, by trivial, ?_⟩
  intro vr vg vb hr hg hb
  refine ⟨⟨0, 0, vr, vg, vb, 0, 0, 0⟩, by norm_num, ?_⟩
  show Color.mk (vr % 2 ^ 8) (vg % 2 ^ 8) (vb % 2 ^ 8) 255 =
    Color.mk vr vg vb 255
  congr 1 <;> omega

theorem mutateTile_selected_ranges_witness :
    (mutateTile ⟨0, 0, 0, 0, 0, 0, 0, 0⟩ Tile.default).code_point <
      cp437Count ∧
    (mutateTile ⟨0, 0, 0, 0, 0, 0, 0, 0⟩ Tile.default).dirty = true :=
  ⟨(mutateTile_selected_ranges ⟨0, 0, 0, 0, 0, 0, 0, 0⟩ Tile.default
      (by norm_num)).1,
   (mutateTile_selected_ranges ⟨0, 0, 0, 0, 0, 0, 0, 0⟩ Tile.default
      (by norm_num)).2.2.2.2.2.2.2.2.2.1⟩

theorem i32cast_eq_floor {q : ℚ} (hq : 0 ≤ q) : i32cast q = ⌊q⌋ :=
  if_pos hq

theorem i32cast_nonneg {q : ℚ} (hq : 0 ≤ q) : 0 ≤ i32cast q := by
  rw [i32cast_eq_floor hq]
  exact Int.floor_nonneg.mpr hq

theorem ratW_mul_self (w : Nat) : ratW w * (WINDOW_SIZE.1 : ℚ) = (w : ℚ) := by
  rw [ratW]
  exact div_mul_cancel₀ _ (by norm_num [WINDOW_SIZE])

theorem ratH_mul_self (h : Nat) : ratH h * (WINDOW_SIZE.2 : ℚ) = (h : ℚ) := by
  rw [ratH]
  exact div_mul_cancel₀ _ (by norm_num [WINDOW_SIZE])

theorem ratW_scale_nonneg (w : Nat) : 0 ≤ ratW w * (WINDOW_SIZE.2 : ℚ) := by
  rw [ratW]
  have h1 : (0 : ℚ) ≤ (w : ℚ) := Nat.cast_nonneg w
  have h2 : (0 : ℚ) < (WINDOW_SIZE.1 : ℚ) := by norm_num [WINDOW_SIZE]
  have h3 : (0 : ℚ) ≤ (WINDOW_SIZE.2 : ℚ) := by norm_num [WINDOW_SIZE]
  exact mul_nonneg (div_nonneg h1 (le_of_lt h2)) h3

theorem ratH_scale_nonneg (h : Nat) : 0 ≤ ratH h * (WINDOW_SIZE.1 : ℚ) := by
  rw [ratH]
  have h1 : (0 : ℚ) ≤ (h : ℚ) := Nat.cast_nonneg h
  have h2 : (0 : ℚ) < (WINDOW_SIZE.2 : ℚ) := by norm_num [WINDOW_SIZE]
  have h3 : (0 : ℚ) ≤ (WINDOW_SIZE.1 : ℚ) := by norm_num [WINDOW_SIZE]
  exact mul_nonneg (div_nonneg h1 (le_of_lt h2)) h3

theorem half_diff_bounds (a b : ℤ) (hb : 0 ≤ b) (hba : b ≤ a) :
    0 ≤ i32cast (((a - b : ℤ) : ℚ) / 2) ∧
      i32cast (((a - b : ℤ) : ℚ) / 2) + b ≤ a := by
  have hab : (0 : ℚ) ≤ ((a - b : ℤ) : ℚ) := by
    exact_mod_cast sub_nonneg.mpr hba
  have h0 : (0 : ℚ) ≤ ((a - b : ℤ) : ℚ) / 2 := by linarith
  rw [i32cast_eq_floor h0]
  refine ⟨Int.floor_nonneg.mpr h0, ?_⟩
  have h2 : ((a - b : ℤ) : ℚ) / 2 ≤ ((a - b : ℤ) : ℚ) := by linarith
  have h1 : ⌊((a - b : ℤ) : ℚ) / 2⌋ ≤ a - b := by
    calc ⌊((a - b : ℤ) : ℚ) / 2⌋ ≤ ⌊((a - b : ℤ) : ℚ)⌋ := Int.floor_le_floor h2
    _ = a - b := Int.floor_intCast _
  omega

/-- C2 counterexample: the code's branch condition is the strict `rat_w >
rat_h`, so at the tie `(1280, 720)` (where `rat_w = rat_h = 1`) the
height-binding branch is NOT taken; moreover the scaled extent is truncated,
not rounded: at window `(1282, 721)` the height-binding branch yields `destW =
1281` while `round(h/rh * rw) = round(721/720 * 1280) = 1282`. -/
theorem update_dstrect_tie_counterexample :
    ratW 1280 = ratH 720 ∧
    heightBinding 1280 720 = false ∧
    update_dstrect 1280 720 = widthBranch 1280 720 ∧
    (update_dstrect 1282 721).w = 1281 ∧
    round ((721 : ℚ) / 720 * 1280) = 1282 := by
  refine ⟨by norm_num [ratW, ratH, WINDOW_SIZE],
    by norm_num [heightBinding, ratW, ratH, WINDOW_SIZE], ?_, ?_, ?_⟩
  · rw [update_dstrect, if_neg (by norm_num [ratW, ratH, WINDOW_SIZE])]
  · norm_num [update_dstrect, ratW, ratH, WINDOW_SIZE, heightBranch, i32cast]
  · norm_num [round_eq, Int.floor_eq_iff]

/-- C2 (amended): whenever the window is relatively wider than the reference
aspect (`rat_w > rat_h`, strictly), the height-binding branch computes the
result: `destH = h`, `destW = floor(h/rh * rw)` (truncation, not rounding),
`destX = floor((w - destW)/2)`, `destY = 0`; a tie `rat_w = rat_h` takes the
width-binding branch instead, whose output at an exact tie coincides with the
height-binding formula. -/
theorem update_dstrect_branches (w h : Nat) :
    (ratW w > ratH h →
      update_dstrect w h = heightBranch w h ∧
      (update_dstrect w h).h = (h : ℤ) ∧
      (update_dstrect w h).y = 0 ∧
      (update_dstrect w h).w = ⌊ratH h * ((1280 : ℕ) : ℚ)⌋ ∧
      (update_dstrect w h).x =
        ⌊(((w : ℤ) - ⌊ratH h * ((1280 : ℕ) : ℚ)⌋ : ℤ) : ℚ) / 2⌋) ∧
    (ratW w = ratH h →
      update_dstrect w h = widthBranch w h ∧
      widthBranch w h = heightBranch w h) := by
  constructor
  · intro hgt
    have hupd : update_dstrect w h = heightBranch w h := by
      rw [update_dstrect, if_pos hgt]
    have hws : ((1280 : ℕ) : ℚ) = (WINDOW_SIZE.1 : ℚ) := by
      norm_num [WINDOW_SIZE]
    have h0 : 0 ≤ ratH h * (WINDOW_SIZE.1 : ℚ) := ratH_scale_nonneg h
    have hwcast : (heightBranch w h).w = ⌊ratH h * (WINDOW_SIZE.1 : ℚ)⌋ :=
      i32cast_eq_floor h0
    refine ⟨hupd, by rw [hupd]; rfl, by rw [hupd]; rfl, ?_, ?_⟩
    · rw [hupd, hws]
      exact hwcast
    · rw [hupd, hws]
      show i32cast ((((w : ℤ) - i32cast (ratH h * (WINDOW_SIZE.1 : ℚ)) : ℤ) : ℚ) / 2) =
        ⌊(((w : ℤ) - ⌊ratH h * (WINDOW_SIZE.1 : ℚ)⌋ : ℤ) : ℚ) / 2⌋
      rw [i32cast_eq_floor h0]
      apply i32cast_eq_floor
      have hstep : ratH h * (WINDOW_SIZE.1 : ℚ) < ratW w * (WINDOW_SIZE.1 : ℚ) :=
        mul_lt_mul_of_pos_right hgt (by norm_num [WINDOW_SIZE])
      have hlt : ratH h * (WINDOW_SIZE.1 : ℚ) < (w : ℚ) :=
        lt_of_lt_of_le hstep (le_of_eq (ratW_mul_self w))
      have hfl : ⌊ratH h * (WINDOW_SIZE.1 : ℚ)⌋ ≤ (w : ℤ) := by
        have := Int.floor_le_floor (le_of_lt hlt)
        rwa [Int.floor_natCast] at this
      have hsub : (0 : ℚ) ≤ (((w : ℤ) - ⌊ratH h * (WINDOW_SIZE.1 : ℚ)⌋ : ℤ) : ℚ) := by
        exact_mod_cast sub_nonneg.mpr hfl
      linarith
  · intro htie
    have hne : ¬ (ratW w > ratH h) := by rw [htie]; exact lt_irrefl _
    have hupd : update_dstrect w h = widthBranch w h := by
      rw [update_dstrect, if_neg hne]
    refine ⟨hupd, ?_⟩
    have hdh : ratW w * (WINDOW_SIZE.2 : ℚ) = (h : ℚ) := by
      rw [htie]; exact ratH_mul_self h
    have hdw : ratH h * (WINDOW_SIZE.1 : ℚ) = (w : ℚ) := by
      rw [← htie]; exact ratW_mul_self w
    have hcasth : i32cast (ratW w * (WINDOW_SIZE.2 : ℚ)) = (h : ℤ) := by
      rw [hdh, i32cast_eq_floor (Nat.cast_nonneg h), Int.floor_natCast]
    have hcastw : i32cast (ratH h * (WINDOW_SIZE.1 : ℚ)) = (w : ℤ) := by
      rw [hdw, i32cast_eq_floor (Nat.cast_nonneg w), Int.floor_natCast]
    show DstRect.mk 0
        (i32cast ((((h : ℤ) - i32cast (ratW w * (WINDOW_SIZE.2 : ℚ)) : ℤ) : ℚ) / 2))
        (w : ℤ) (i32cast (ratW w * (WINDOW_SIZE.2 : ℚ))) =
      DstRect.mk
        (i32cast ((((w : ℤ) - i32cast (ratH h * (WINDOW_SIZE.1 : ℚ)) : ℤ) : ℚ) / 2))
        0 (i32cast (ratH h * (WINDOW_SIZE.1 : ℚ))) (h : ℤ)
    rw [hcasth, hcastw]
    have hz : ∀ a : ℤ, i32cast (((a - a : ℤ) : ℚ) / 2) = 0 := by
      intro a
      have : ((a - a : ℤ) : ℚ) / 2 = 0 := by
        rw [sub_self]
        norm_num
      rw [this, i32cast_eq_floor (le_refl 0), Int.floor_zero]
    rw [hz, hz]

theorem update_dstrect_branches_witness :
    update_dstrect 1280 720 = widthBranch 1280 720 ∧
    update_dstrect 1920 720 = heightBranch 1920 720 :=
  ⟨((update_dstrect_branches 1280 720).2
      (by norm_num [ratW, ratH, WINDOW_SIZE])).1,
   ((update_dstrect_branches 1920 720).1
      (by norm_num [ratW, ratH, WINDOW_SIZE])).1⟩

/-- C9: for every window size with positive dimensions, the rectangle produced
by `update_dstrect` lies entirely inside the window: `x >= 0`, `y >= 0`,
`x + w <= windowW`, `y + h <= windowH`. -/
theorem update_dstrect_inside_window (w h : Nat) (hw : 0 < w) (hh : 0 < h) :
    0 ≤ (update_dstrect w h).x ∧ 0 ≤ (update_dstrect w h).y ∧
    (update_dstrect w h).x + (update_dstrect w h).w ≤ (w : ℤ) ∧
    (update_dstrect w h).y + (update_dstrect w h).h ≤ (h : ℤ) := by
  by_cases hgt : ratW w > ratH h
  · rw [update_dstrect, if_pos hgt]
    have h0 : 0 ≤ ratH h * (WINDOW_SIZE.1 : ℚ) := ratH_scale_nonneg h
    have hdw0 : 0 ≤ i32cast (ratH h * (WINDOW_SIZE.1 : ℚ)) := i32cast_nonneg h0
    have hstep : ratH h * (WINDOW_SIZE.1 : ℚ) < ratW w * (WINDOW_SIZE.1 : ℚ) :=
      mul_lt_mul_of_pos_right hgt (by norm_num [WINDOW_SIZE])
    have hlt : ratH h * (WINDOW_SIZE.1 : ℚ) < (w : ℚ) :=
      lt_of_lt_of_le hstep (le_of_eq (ratW_mul_self w))
    have hdwle : i32cast (ratH h * (WINDOW_SIZE.1 : ℚ)) ≤ (w : ℤ) := by
      rw [i32cast_eq_floor h0]
      have := Int.floor_le_floor (le_of_lt hlt)
      rwa [Int.floor_natCast] at this
    obtain ⟨hx0, hxw⟩ :=
      half_diff_bounds (w : ℤ) (i32cast (ratH h * (WINDOW_SIZE.1 : ℚ))) hdw0 hdwle
    exact ⟨hx0, le_refl 0, hxw, by simp [heightBranch]⟩
  · rw [update_dstrect, if_neg hgt]
    have hle : ratW w ≤ ratH h := le_of_not_lt hgt
    have h0 : 0 ≤ ratW w * (WINDOW_SIZE.2 : ℚ) := ratW_scale_nonneg w
    have hdh0 : 0 ≤ i32cast (ratW w * (WINDOW_SIZE.2 : ℚ)) := i32cast_nonneg h0
    have hsteph : ratW w * (WINDOW_SIZE.2 : ℚ) ≤ ratH h * (WINDOW_SIZE.2 : ℚ) :=
      mul_le_mul_of_nonneg_right hle (by norm_num [WINDOW_SIZE])
    have hlth : ratW w * (WINDOW_SIZE.2 : ℚ) ≤ (h : ℚ) :=
      le_trans hsteph (le_of_eq (ratH_mul_self h))
    have hdhle : i32cast (ratW w * (WINDOW_SIZE.2 : ℚ)) ≤ (h : ℤ) := by
      rw [i32cast_eq_floor h0]
      have := Int.floor_le_floor hlth
      rwa [Int.floor_natCast] at this
    obtain ⟨hy0, hyh⟩ :=
      half_diff_bounds (h : ℤ) (i32cast (ratW w * (WINDOW_SIZE.2 : ℚ))) hdh0 hdhle
    exact ⟨le_refl 0, hy0, by simp [widthBranch], hyh⟩

theorem update_dstrect_inside_window_witness :
    0 ≤ (update_dstrect 600 1200).x ∧ 0 ≤ (update_dstrect 600 1200).y ∧
    (update_dstrect 600 1200).x + (update_dstrect 600 1200).w ≤ (600 : ℤ) ∧
    (update_dstrect 600 1200).y + (update_dstrect 600 1200).h ≤ (1200 : ℤ) := by
  have hmain := update_dstrect_inside_window 600 1200 (by norm_num) (by norm_num)
  exact_mod_cast hmain
